import Mathlib

/-!
Shallow embedding of `script.py` from the `cookie_leaked_credentials`
repository: a CLI tool that fetches cookies from a target URL, obtains a
list of leaked JWT secrets (remote fetch with local-file fallback), flags
every cookie whose value equals a secret, prints, and saves the matches
as JSON.  Network and filesystem effects are modelled by explicit oracle
arguments (`TargetOutcome`, `RemoteOutcome`, `Option String` for the local
file); printing is modelled by collecting the printed lines.
-/

namespace LeakedCreds

/-- The line-boundary characters of Python `str.splitlines`
(CPython: \n, \r, \r\n, \x0b, \x0c, \x1c, \x1d, \x1e, \x85,  ,  ). -/
def isLineBreak (c : Char) : Bool :=
  c = '\n' || c = '\r' || c = '\x0b' || c = '\x0c' ||
  c = '\x1c' || c = '\x1d' || c = '\x1e' || c = '\x85' ||
  c = ' ' || c = ' '

/-- Worker for Python `str.splitlines()` (keepends=False): `acc` is the
reversed current line; `\r\n` counts as a single boundary, realised as a
lookbehind flag `lastCR` — a `\n` immediately after a `\r` is part of the
already-ended line, not a new boundary. -/
def splitlinesGo (lastCR : Bool) (acc : List Char) : List Char → List (List Char)
  | [] => if acc = [] then [] else [acc.reverse]
  | c :: rest =>
    if c = '\n' then
      if lastCR then splitlinesGo false acc rest
      else acc.reverse :: splitlinesGo false [] rest
    else if c = '\r' then
      acc.reverse :: splitlinesGo true [] rest
    else if isLineBreak c then
      acc.reverse :: splitlinesGo false [] rest
    else
      splitlinesGo false (c :: acc) rest

/-- Python `content.splitlines()` on the character list of the content. -/
def splitlinesCore (l : List Char) : List (List Char) := splitlinesGo false [] l

/-- Python `content.splitlines()` (as used on the downloaded secrets body,
`script.py` line 106). -/
def splitlines (s : String) : List String :=
  (splitlinesCore s.data).map String.mk

/-- Worker for the universal-newlines translation done by Python
text-mode reading (`open(..., 'r')` with default `newline=None`): `\r\n`
and a lone `\r` both become `\n`, realised with a lookbehind flag — a
`\n` immediately after a `\r` was already translated with it. -/
def univNewlinesGo (lastCR : Bool) : List Char → List Char
  | [] => []
  | c :: rest =>
    if c = '\n' then
      if lastCR then univNewlinesGo false rest
      else '\n' :: univNewlinesGo false rest
    else if c = '\r' then
      '\n' :: univNewlinesGo true rest
    else
      c :: univNewlinesGo false rest

/-- Universal-newlines translation of a whole text. -/
def univNewlines (l : List Char) : List Char := univNewlinesGo false l

/-- Worker for Python `file.readlines()`: split on `\n` KEEPING the `\n`
at the end of each entry; a final segment without `\n` is kept as-is. -/
def readlinesGo (acc : List Char) : List Char → List (List Char)
  | [] => if acc = [] then [] else [acc.reverse]
  | c :: rest =>
    if c = '\n' then
      (acc.reverse ++ ['\n']) :: readlinesGo [] rest
    else
      readlinesGo (c :: acc) rest

/-- `file.readlines()` on already newline-translated text. -/
def readlinesCore (l : List Char) : List (List Char) := readlinesGo [] l

/-- Python `open(name, 'r').readlines()` on a file whose raw content is `s`
(`script.py` lines 124-125): universal-newlines translation, then a split
that keeps each trailing `\n`. -/
def readlines (s : String) : List String :=
  (readlinesCore (univNewlines s.data)).map String.mk

/-- One flagged cookie, `{'title': key, 'value': cookie}` in
`CookiesParser.parse_cookies` (`script.py` line 179). -/
structure MatchResult where
  title : String
  value : String
deriving DecidableEq

/-- The matching loop of `CookiesParser.parse_cookies` (`script.py` lines
174-180): iterate the cookie dict in order, keep every cookie whose value
is a member of the secrets list (exact string equality via Python `in`). -/
def parse_cookies : List (String × String) → List String → List MatchResult
  | [], _ => []
  | (key, cookie) :: rest, secrets =>
    if cookie ∈ secrets then
      MatchResult.mk key cookie :: parse_cookies rest secrets
    else
      parse_cookies rest secrets

/-- `SUCCESS_RESPONSE_CODE = 200` (`script.py` line 13). -/
def SUCCESS_RESPONSE_CODE : Nat := 200

/-- The `RunConfig` NamedTuple (`script.py` lines 18-23), with its field
defaults. -/
structure RunConfig where
  url : String
  output : String := "result.json"
  quiet : Bool := false
  print_cookies : Bool := false
  no_color : Bool := true

/-- The argparse namespace produced by `cli()` (`script.py` lines 250-265):
one value per flag. -/
structure CliArgs where
  url : String
  output : String
  quiet : Bool
  print_cookies : Bool
  no_color : Bool

/-- The `default=False` of the `-n` (`--no-color`) argparse flag
(`script.py` line 262). -/
def argparse_no_color_default : Bool := false

/-- `define_config_from_cmd` (`script.py` lines 240-247): always passes
every parsed value explicitly to `RunConfig`. -/
def define_config_from_cmd (parsed_args : CliArgs) : RunConfig :=
  { url := parsed_args.url
    output := parsed_args.output
    quiet := parsed_args.quiet
    print_cookies := parsed_args.print_cookies
    no_color := parsed_args.no_color }

/-- `colorama.Fore.RED`. -/
def Fore_RED : String := "\x1b[31m"

/-- `colorama.Fore.GREEN`. -/
def Fore_GREEN : String := "\x1b[32m"

/-- `PrettyPrint.print_in_color` (`script.py` lines 31-47), returning the
line that is printed: plain when `no_color`, else red for danger and green
otherwise. -/
def print_in_color (no_color : Bool) (text : String) (danger : Bool) : String :=
  if no_color then text
  else if danger then Fore_RED ++ text
  else Fore_GREEN ++ text

/-- The lines printed by `PrettyPrint.print_result` (`script.py` lines
49-61): for each match dict the loop over `value.items()` prints the
`title` and `value` entries as two lines. -/
def print_result_lines (no_color : Bool) (result : List MatchResult) : List String :=
  if result.isEmpty then
    [print_in_color no_color "\n[+] Success, no jwt secrets found" false]
  else
    print_in_color no_color "\n[!] Secrets in cookies found:" true ::
      (result.map (fun r =>
        [print_in_color no_color ("title: " ++ r.title) true,
         print_in_color no_color ("value: " ++ r.value) true])).flatten

/-- The lines printed by `PrettyPrint.print_cookies` (`script.py` lines
63-70). -/
def print_cookies_lines (no_color : Bool) (cookies : List (String × String)) : List String :=
  print_in_color no_color "\nReceived cookies:" false ::
    cookies.map (fun kv => print_in_color no_color (kv.1 ++ ": " ++ kv.2) false)

/-- Oracle for the outcome of the GET request to the target in
`Requests.make_request_to_target` (`script.py` lines 75-92). -/
inductive TargetOutcome where
  | ok (cookies : List (String × String))
  | invalidURL
  | connError

/-- `Requests.make_request_to_target` (`script.py` lines 75-92): on
success return the filtered cookie jar; on `InvalidURL` or
`ClientConnectorError` print a message and call Python `exit()`, which
raises `SystemExit(None)` and makes the process exit with STATUS 0.
Returns the printed lines and either the exit status or the cookies. -/
def make_request_to_target (no_color : Bool) (url : String) (t : TargetOutcome) :
    List String × Except Nat (List (String × String)) :=
  match t with
  | .ok cookies => ([], .ok cookies)
  | .invalidURL =>
    ([print_in_color no_color ("Wrong url: " ++ url) true], .error 0)
  | .connError =>
    ([print_in_color no_color
        ("Cannot connect to host " ++ url ++
         ".[nodename nor servname provided, or not known]") true], .error 0)

/-- Oracle for the outcome of the GET request for the remote secrets list
in `Requests.download_jwt_secrets` (`script.py` lines 101-109). -/
inductive RemoteOutcome where
  | response (status : Nat) (body : String)
  | connError
  | otherError

/-- The error raised by `open(JWT_SECRETS_FILE_NAME, 'r')` when the local
fallback file is missing or unreadable. -/
inductive FileError where
  | fileNotFound
deriving DecidableEq

/-- `ReadWriteDocuments.read_jwt_secrets_file` (`script.py` lines 122-125):
`open(...).readlines()`; a missing file raises (modelled as `.error`).
The local file content is the oracle argument. -/
def read_jwt_secrets_file (localFile : Option String) : Except FileError (List String) :=
  match localFile with
  | some content => .ok (readlines content)
  | none => .error .fileNotFound

/-- `Requests.download_jwt_secrets` (`script.py` lines 94-110): if the
remote response status equals `SUCCESS_RESPONSE_CODE` return
`content.splitlines()`; any other status raises, and the
`except (ClientConnectorError, Exception)` handler answers every failure
by calling `read_jwt_secrets_file` — whose own error is raised inside the
handler and therefore propagates uncaught. -/
def download_jwt_secrets (remote : RemoteOutcome) (localFile : Option String) :
    Except FileError (List String) :=
  match remote with
  | .response status body =>
    if status = SUCCESS_RESPONSE_CODE then .ok (splitlines body)
    else read_jwt_secrets_file localFile
  | .connError => read_jwt_secrets_file localFile
  | .otherError => read_jwt_secrets_file localFile

/-- Lower-case hex digit, as produced by Python `'%04x'` formatting inside
`json.dumps` escapes. -/
def hexDig (k : Nat) : Char :=
  if k < 10 then Char.ofNat (48 + k) else Char.ofNat (87 + k)

/-- Four-digit lower-case hex rendering of `n < 0x10000`, as in the
`\uXXXX` escapes of `json.dumps`. -/
def hex4 (n : Nat) : List Char :=
  [hexDig (n / 4096 % 16), hexDig (n / 256 % 16), hexDig (n / 16 % 16), hexDig (n % 16)]

/-- The escaping of one character by `json.dumps` with its default
`ensure_ascii=True` (CPython `py_encode_basestring_ascii`): the short
escapes, printable ASCII kept verbatim, `\uXXXX` for everything else,
with a surrogate pair for code points above 0xFFFF. -/
def escapeChar (c : Char) : List Char :=
  if c = '\\' then ['\\', '\\']
  else if c = '"' then ['\\', '"']
  else if c = '\x08' then ['\\', 'b']
  else if c = '\x0c' then ['\\', 'f']
  else if c = '\n' then ['\\', 'n']
  else if c = '\r' then ['\\', 'r']
  else if c = '\t' then ['\\', 't']
  else if 0x20 ≤ c.toNat ∧ c.toNat ≤ 0x7e then [c]
  else if c.toNat < 0x10000 then '\\' :: 'u' :: hex4 c.toNat
  else
    ('\\' :: 'u' :: hex4 (0xd800 + (c.toNat - 0x10000) / 0x400)) ++
    ('\\' :: 'u' :: hex4 (0xdc00 + (c.toNat - 0x10000) % 0x400))

/-- `json.dumps` escaping of a whole string body. -/
def escapeList (s : List Char) : List Char := (s.map escapeChar).flatten

/-- A JSON string literal as emitted by `json.dumps`. -/
def encStr (s : List Char) : List Char := '"' :: escapeList s ++ ['"']

/-- One `{'title': key, 'value': cookie}` object as emitted by
`json.dumps` with the default separators `(', ', ': ')`. -/
def dumpEntry (r : MatchResult) : List Char :=
  '\x7b' :: (encStr "title".data ++ ':' :: ' ' :: encStr r.title.data ++
    ',' :: ' ' :: encStr "value".data ++ ':' :: ' ' :: encStr r.value.data) ++ ['\x7d']

/-- `', '.join` of the serialized objects (Python list body). -/
def dumpItems : List MatchResult → List Char
  | [] => []
  | [r] => dumpEntry r
  | r :: rest => dumpEntry r ++ ',' :: ' ' :: dumpItems rest

/-- `json.dumps(result)` for the matcher's result list (character list). -/
def dumpsCore (l : List MatchResult) : List Char :=
  '[' :: dumpItems l ++ [']']

/-- `json.dumps(result)`: the exact text written by
`ReadWriteDocuments.save_result_to_file` (`script.py` lines 118-120). -/
def json_dumps (l : List MatchResult) : String :=
  String.mk (dumpsCore l)

/-- JSON whitespace characters accepted by `json.loads`. -/
def isJsonWs (c : Char) : Bool :=
  c = ' ' || c = '\t' || c = '\n' || c = '\r'

/-- Skip JSON whitespace. -/
def skipWs (l : List Char) : List Char := l.dropWhile isJsonWs

/-- Value of one hex digit as accepted by `json.loads` `\uXXXX` escapes. -/
def fromHexDig (c : Char) : Option Nat :=
  if 48 ≤ c.toNat ∧ c.toNat ≤ 57 then some (c.toNat - 48)
  else if 97 ≤ c.toNat ∧ c.toNat ≤ 102 then some (c.toNat - 87)
  else if 65 ≤ c.toNat ∧ c.toNat ≤ 70 then some (c.toNat - 55)
  else none

/-- Parse four hex digits of a `\\uXXXX` escape, as `json.loads` does
(upper or lower case), returning the value and the remaining input. -/
def parseHex4 : List Char → Option (Nat × List Char)
  | a :: b :: c :: d :: rest =>
    match fromHexDig a, fromHexDig b, fromHexDig c, fromHexDig d with
    | some x, some y, some z, some w => some (((x * 16 + y) * 16 + z) * 16 + w, rest)
    | _, _, _, _ => none
  | _ => none

theorem parseHex4_length (l : List Char) (n : Nat) (r : List Char)
    (h : parseHex4 l = some (n, r)) : r.length + 4 = l.length := by
  unfold parseHex4 at h
  repeat' split at h
  all_goals simp_all

/-- Decode the rest of a `\\uXXXX` escape (input starts at the four hex
digits), recombining a high surrogate with a following `\\uXXXX` low
surrogate into one code point, as `json.loads` does.  Lone surrogates are
rejected because a Lean `Char` cannot hold them. -/
def decodeU (l : List Char) : Option (Char × List Char) :=
  match parseHex4 l with
  | some (n, rest3) =>
    if 0xd800 ≤ n ∧ n < 0xdc00 then
      match rest3 with
      | e2 :: u2 :: rest3b =>
        if e2 = '\\' ∧ u2 = 'u' then
          match parseHex4 rest3b with
          | some (m, rest4) =>
            if 0xdc00 ≤ m ∧ m < 0xe000 then
              some (Char.ofNat (0x10000 + (n - 0xd800) * 0x400 + (m - 0xdc00)), rest4)
            else none
          | none => none
        else none
      | _ => none
    else if 0xdc00 ≤ n ∧ n < 0xe000 then none
    else some (Char.ofNat n, rest3)
  | none => none

theorem decodeU_length (l : List Char) (ch : Char) (r : List Char)
    (h : decodeU l = some (ch, r)) : r.length < l.length := by
  unfold decodeU at h
  split at h
  · rename_i n rest3 hp
    have h3 := parseHex4_length l n rest3 hp
    split_ifs at h with h1 h2
    · split at h
      · rename_i e2 u2 rest3b
        split_ifs at h with h5
        split at h
        · rename_i m rest4 hp2
          have h6 := parseHex4_length rest3b m rest4 hp2
          split_ifs at h with h7
          injection h with h'
          injection h' with ha hb
          subst hb
          simp only [List.length_cons] at h3
          omega
        · exact absurd h (by simp)
      · exact absurd h (by simp)
    · injection h with h'
      injection h' with ha hb
      subst hb
      omega
  · exact absurd h (by simp)

/-- Decode one `json.loads` escape sequence (the characters after a
backslash): the short escapes, and `\\uXXXX` via `decodeU`.  Returns the
decoded character and the remaining input.  Not recursive; `parseStr`
drives it. -/
def decodeEscape : List Char → Option (Char × List Char)
  | [] => none
  | e :: rest2 =>
    if e = '"' then some ('"', rest2)
    else if e = '\\' then some ('\\', rest2)
    else if e = '/' then some ('/', rest2)
    else if e = 'b' then some ('\x08', rest2)
    else if e = 'f' then some ('\x0c', rest2)
    else if e = 'n' then some ('\n', rest2)
    else if e = 'r' then some ('\r', rest2)
    else if e = 't' then some ('\t', rest2)
    else if e = 'u' then decodeU rest2
    else none

theorem decodeEscape_length (l : List Char) (ch : Char) (r : List Char)
    (h : decodeEscape l = some (ch, r)) : r.length < l.length := by
  cases l with
  | nil => simp [decodeEscape] at h
  | cons e rest2 =>
    simp only [decodeEscape] at h
    split_ifs at h with h1 h2 h3 h4 h5 h6 h7 h8 h9
    · simp_all
    · simp_all
    · simp_all
    · simp_all
    · simp_all
    · simp_all
    · simp_all
    · simp_all
    · have := decodeU_length rest2 ch r h
      simp only [List.length_cons]
      omega

/-- Parse the body of a JSON string (opening quote already consumed),
following `json.loads` in strict mode: raw control characters are
rejected, escape sequences are decoded by `decodeEscape`. -/
def parseStr : List Char → Option (List Char × List Char)
  | [] => none
  | c :: rest =>
    if c = '"' then some ([], rest)
    else if c = '\\' then
      match h : decodeEscape rest with
      | some (ch, rest2) => (parseStr rest2).map (fun p => (ch :: p.1, p.2))
      | none => none
    else if 0x20 ≤ c.toNat then
      (parseStr rest).map (fun p => (c :: p.1, p.2))
    else none
termination_by l => l.length
decreasing_by
  all_goals simp_wf
  all_goals
    first
      | omega
      | exact Nat.lt_succ_of_lt (decodeEscape_length rest ch rest2 h)

/-- Parse one `"key": "value"` object member (string values only, which is
the only value shape this program ever writes). -/
def parsePair (l : List Char) : Option ((List Char × List Char) × List Char) :=
  match skipWs l with
  | c1 :: r1 =>
    if c1 = '"' then
      match parseStr r1 with
      | some (key, r2) =>
        match skipWs r2 with
        | c2 :: r3 =>
          if c2 = ':' then
            match skipWs r3 with
            | c3 :: r4 =>
              if c3 = '"' then (parseStr r4).map (fun p => ((key, p.1), p.2))
              else none
            | [] => none
          else none
        | [] => none
      | none => none
    else none
  | [] => none

/-- Parse the members of a JSON object after at least one member is known
to be present, up to and including the closing brace.  `fuel` bounds the
number of members. -/
def parseMembers : Nat → List Char → Option (List (List Char × List Char) × List Char)
  | 0, _ => none
  | fuel + 1, l =>
    match parsePair l with
    | some (p, r) =>
      match skipWs r with
      | c :: r2 =>
        if c = '\x7d' then some ([p], r2)
        else if c = ',' then
          match parseMembers fuel r2 with
          | some (ps, r3) => some (p :: ps, r3)
          | none => none
        else none
      | [] => none
    | none => none

/-- Parse one JSON object whose values are strings. -/
def parseObj (fuel : Nat) (l : List Char) : Option (List (List Char × List Char) × List Char) :=
  match skipWs l with
  | c :: r =>
    if c = '\x7b' then
      match skipWs r with
      | c2 :: r2 =>
        if c2 = '\x7d' then some ([], r2)
        else parseMembers fuel r
      | [] => none
    else none
  | [] => none

/-- Parse the elements of a JSON array of objects after at least one
element is known to be present, up to and including the closing bracket. -/
def parseElems : Nat → List Char → Option (List (List (List Char × List Char)) × List Char)
  | 0, _ => none
  | fuel + 1, l =>
    match parseObj (fuel + 1) l with
    | some (o, r) =>
      match skipWs r with
      | c :: r2 =>
        if c = ']' then some ([o], r2)
        else if c = ',' then
          match parseElems fuel r2 with
          | some (os, r3) => some (o :: os, r3)
          | none => none
        else none
      | [] => none
    | none => none

/-- `json.loads` restricted to the grammar this program emits: a JSON
array of objects with string values, rejecting trailing garbage. -/
def parseTop (l : List Char) : Option (List (List (List Char × List Char))) :=
  match skipWs l with
  | c :: r =>
    if c = '[' then
      match skipWs r with
      | c2 :: r2 =>
        if c2 = ']' then (if skipWs r2 = [] then some [] else none)
        else
          match parseElems (l.length + 1) r with
          | some (os, r2) => if skipWs r2 = [] then some os else none
          | none => none
      | [] => none
    else none
  | [] => none

/-- `json.loads` on a string, producing the array of objects as
association lists of strings. -/
def jsonParse (s : String) : Option (List (List (String × String))) :=
  (parseTop s.data).map (fun os => os.map (fun o => o.map (fun p => (String.mk p.1, String.mk p.2))))

/-- Observable trace of one `LeakedCookie.run` invocation: the console
lines printed, the match list computed (when the pipeline got that far),
the file written (path and exact text), and an early-termination status
(`none` when the pipeline ran to completion). -/
structure RunTrace where
  printed : List String
  result : Option (List MatchResult)
  fileWrite : Option (String × String)
  exitCode : Option Nat
deriving DecidableEq

/-- `LeakedCookie.run` (`script.py` lines 192-220): fetch cookies
(terminating on a fetch error), optionally print them, obtain the secrets
and match (`CookiesParser.parse_cookies`, whose internal
`download_jwt_secrets` may raise `FileNotFoundError` — an uncaught Python
exception terminates the process with status 1), optionally print the
result, and always save the result file last. -/
def LeakedCookie_run (config : RunConfig) (target : TargetOutcome)
    (remote : RemoteOutcome) (localFile : Option String) : RunTrace :=
  let fetch := make_request_to_target config.no_color config.url target
  match fetch.2 with
  | .error code =>
    { printed := fetch.1, result := none, fileWrite := none, exitCode := some code }
  | .ok cookies =>
    let p1 := if config.print_cookies && !cookies.isEmpty
      then print_cookies_lines config.no_color cookies else []
    match download_jwt_secrets remote localFile with
    | .error _ =>
      { printed := fetch.1 ++ p1, result := none, fileWrite := none, exitCode := some 1 }
    | .ok secrets =>
      let res := parse_cookies cookies secrets
      let p2 := if config.quiet then [] else print_result_lines config.no_color res
      { printed := fetch.1 ++ p1 ++ p2, result := some res,
        fileWrite := some (config.output, json_dumps res), exitCode := none }

/-- Remove a leading `Fore.RED` or `Fore.GREEN` ANSI prefix from a printed
line, if present. -/
def stripColor (s : String) : String :=
  match s.data with
  | '\x1b' :: '[' :: '3' :: '1' :: 'm' :: rest => String.mk rest
  | '\x1b' :: '[' :: '3' :: '2' :: 'm' :: rest => String.mk rest
  | _ => s

/-- Two consecutive line-boundary characters that do not form the single
boundary `\r\n` — i.e. the text contains a blank line. -/
inductive ConsecBreaks : List Char → Prop where
  | head (a b : Char) (t : List Char) : isLineBreak a = true → isLineBreak b = true →
      ¬(a = '\r' ∧ b = '\n') → ConsecBreaks (a :: b :: t)
  | tail (c : Char) (t : List Char) : ConsecBreaks t → ConsecBreaks (c :: t)

/-- The association list `json.loads` recovers from one serialized
`{'title': ..., 'value': ...}` object (character-list level). -/
def entryObj (r : MatchResult) : List (List Char × List Char) :=
  [("title".data, r.title.data), ("value".data, r.value.data)]

/-! ## Helper lemmas about the matcher -/

theorem mem_parse_cookies (cookies : List (String × String)) (secrets : List String)
    (k v : String) :
    MatchResult.mk k v ∈ parse_cookies cookies secrets ↔ (k, v) ∈ cookies ∧ v ∈ secrets := by
  induction cookies with
  | nil => simp [parse_cookies]
  | cons hd tl ih =>
    obtain ⟨hk, hv⟩ := hd
    by_cases h : hv ∈ secrets
    · simp only [parse_cookies, if_pos h, List.mem_cons, MatchResult.mk.injEq,
        Prod.mk.injEq, ih]
      constructor
      · rintro (⟨rfl, rfl⟩ | ⟨h1, h2⟩)
        · exact ⟨Or.inl ⟨rfl, rfl⟩, h⟩
        · exact ⟨Or.inr h1, h2⟩
      · rintro ⟨⟨rfl, rfl⟩ | h1, h2⟩
        · exact Or.inl ⟨rfl, rfl⟩
        · exact Or.inr ⟨h1, h2⟩
    · simp only [parse_cookies, if_neg h, ih, List.mem_cons, Prod.mk.injEq]
      constructor
      · rintro ⟨h1, h2⟩
        exact ⟨Or.inr h1, h2⟩
      · rintro ⟨⟨rfl, rfl⟩ | h1, h2⟩
        · exact absurd h2 h
        · exact ⟨h1, h2⟩

theorem parse_cookies_value_mem (cookies : List (String × String)) (secrets : List String)
    (r : MatchResult) (hr : r ∈ parse_cookies cookies secrets) : r.value ∈ secrets := by
  induction cookies with
  | nil => simp [parse_cookies] at hr
  | cons hd tl ih =>
    obtain ⟨hk, hv⟩ := hd
    by_cases h : hv ∈ secrets
    · simp only [parse_cookies, if_pos h, List.mem_cons] at hr
      rcases hr with rfl | hr
      · exact h
      · exact ih hr
    · simp only [parse_cookies, if_neg h] at hr
      exact ih hr

theorem parse_cookies_eq_filter_map (cookies : List (String × String)) (secrets : List String) :
    parse_cookies cookies secrets =
      (cookies.filter (fun kv => decide (kv.2 ∈ secrets))).map
        (fun kv => MatchResult.mk kv.1 kv.2) := by
  induction cookies with
  | nil => simp [parse_cookies]
  | cons hd tl ih =>
    obtain ⟨hk, hv⟩ := hd
    by_cases h : hv ∈ secrets <;>
      simp [parse_cookies, h, ih, List.filter_cons]

/-! ## Claims about the Matcher -/

/-- Claim C1: for every CookieSet and SecretList, `parse_cookies` returns
exactly the cookies whose value is an exact, case-sensitive string equal
to some entry of the secrets list, and no cookie whose value is absent
from it; consequently every returned MatchResult's value is present
verbatim in the secrets list. -/
theorem claim_C1 (cookies : List (String × String)) (secrets : List String) :
    (∀ k v : String,
      MatchResult.mk k v ∈ parse_cookies cookies secrets ↔ (k, v) ∈ cookies ∧ v ∈ secrets) ∧
    (∀ r : MatchResult, r ∈ parse_cookies cookies secrets → r.value ∈ secrets) :=
  ⟨fun k v => mem_parse_cookies cookies secrets k v,
   fun r hr => parse_cookies_value_mem cookies secrets r hr⟩

/-- Concrete instance of claim C1. -/
theorem claim_C1_witness :
    (MatchResult.mk "session" "abc123" ∈
      parse_cookies [("session", "abc123"), ("x", "y")] ["abc123", "default"]) ∧
    (("abc123" : String) ∈ ["abc123", "default"]) := by
  have h := claim_C1 [("session", "abc123"), ("x", "y")] ["abc123", "default"]
  have hmem := (h.1 "session" "abc123").mpr (by decide)
  exact ⟨hmem, h.2 (MatchResult.mk "session" "abc123") hmem⟩

/-- Claim C5: the MatchResult sequence lists cookies in the CookieSet's
iteration order (its sequence of titles is a sublist of the cookie-name
sequence) and, since a Python dict has unique keys, contains at most one
MatchResult per cookie name. -/
theorem claim_C5 (cookies : List (String × String)) (secrets : List String) :
    ((parse_cookies cookies secrets).map MatchResult.title).Sublist
      (cookies.map Prod.fst) ∧
    ((cookies.map Prod.fst).Nodup →
      ((parse_cookies cookies secrets).map MatchResult.title).Nodup) := by
  have hsub : ((parse_cookies cookies secrets).map MatchResult.title).Sublist
      (cookies.map Prod.fst) := by
    rw [parse_cookies_eq_filter_map, List.map_map]
    have : (MatchResult.title ∘ fun kv : String × String => MatchResult.mk kv.1 kv.2) =
        Prod.fst := rfl
    rw [this]
    exact (List.filter_sublist cookies).map Prod.fst
  exact ⟨hsub, fun hnd => hnd.sublist hsub⟩

/-- Concrete instance of claim C5. -/
theorem claim_C5_witness :
    ((parse_cookies [("a", "v"), ("b", "v")] ["v"]).map MatchResult.title).Sublist
      ([("a", "v"), ("b", "v")].map Prod.fst) ∧
    ((parse_cookies [("a", "v"), ("b", "v")] ["v"]).map MatchResult.title).Nodup :=
  ⟨(claim_C5 [("a", "v"), ("b", "v")] ["v"]).1,
   (claim_C5 [("a", "v"), ("b", "v")] ["v"]).2 (by decide)⟩

/-! ## Helper lemmas about line splitting -/

theorem flatten_readlinesGo (l : List Char) : ∀ acc : List Char,
    (readlinesGo acc l).flatten = acc.reverse ++ l := by
  induction l with
  | nil =>
    intro acc
    by_cases h : acc = [] <;> simp [readlinesGo, h]
  | cons c rest ih =>
    intro acc
    by_cases h : c = '\n'
    · subst h
      simp [readlinesGo, ih, List.append_assoc]
    · simp [readlinesGo, h, ih]

theorem mk_append_mk (a b : List Char) :
    String.mk a ++ String.mk b = String.mk (a ++ b) := rfl

theorem foldl_append_mk (ll : List (List Char)) : ∀ a : List Char,
    List.foldl (fun r s => r ++ s) (String.mk a) (ll.map String.mk) =
      String.mk (a ++ ll.flatten) := by
  induction ll with
  | nil => intro a; simp
  | cons hd tl ih =>
    intro a
    simp only [List.map_cons, List.foldl_cons, List.flatten_cons]
    rw [mk_append_mk, ih, List.append_assoc]

theorem join_map_mk (ll : List (List Char)) :
    String.join (ll.map String.mk) = String.mk ll.flatten := by
  show List.foldl (fun r s => r ++ s) "" (ll.map String.mk) = String.mk ll.flatten
  have h : ("" : String) = String.mk [] := rfl
  rw [h, foldl_append_mk]
  rfl

theorem getLast?_concat_nl (l : List Char) : (l ++ ['\n']).getLast? = some '\n' :=
  List.getLast?_concat l

theorem readlinesGo_ends_nl (l : List Char) : ∀ acc : List Char,
    l.getLast? = some '\n' →
    ∀ e ∈ readlinesGo acc l, e.getLast? = some '\n' := by
  induction l with
  | nil => intro acc h; simp at h
  | cons c rest ih =>
    intro acc h e he
    by_cases hc : c = '\n'
    · subst hc
      simp only [readlinesGo, if_pos rfl] at he
      rcases List.mem_cons.mp he with he0 | he'
      · rw [he0]
        exact getLast?_concat_nl _
      · cases rest with
        | nil => simp [readlinesGo] at he'
        | cons d rest' =>
          exact ih [] ((@List.getLast?_cons_cons Char '\n' d rest').symm.trans h) e he'
    · cases rest with
      | nil =>
        simp only [List.getLast?_singleton, Option.some.injEq] at h
        exact absurd h hc
      | cons d rest' =>
        simp only [readlinesGo, if_neg hc] at he
        exact ih (c :: acc) ((@List.getLast?_cons_cons Char c d rest').symm.trans h) e he

theorem splitlinesGo_nil (lastCR : Bool) (acc : List Char) :
    splitlinesGo lastCR acc [] = if acc = [] then [] else [acc.reverse] := by
  simp [splitlinesGo]

theorem splitlinesGo_nl_skip (acc rest : List Char) :
    splitlinesGo true acc ('\n' :: rest) = splitlinesGo false acc rest := by
  simp [splitlinesGo]

theorem splitlinesGo_nl (acc rest : List Char) :
    splitlinesGo false acc ('\n' :: rest) = acc.reverse :: splitlinesGo false [] rest := by
  simp [splitlinesGo]

theorem splitlinesGo_cr (lastCR : Bool) (acc rest : List Char) :
    splitlinesGo lastCR acc ('\r' :: rest) = acc.reverse :: splitlinesGo true [] rest := by
  simp [splitlinesGo]

theorem splitlinesGo_break (lastCR : Bool) (acc : List Char) (c : Char) (rest : List Char)
    (hn : ¬c = '\n') (hr : ¬c = '\r') (hb : isLineBreak c = true) :
    splitlinesGo lastCR acc (c :: rest) = acc.reverse :: splitlinesGo false [] rest := by
  simp [splitlinesGo, hn, hr, hb]

theorem splitlinesGo_other (lastCR : Bool) (acc : List Char) (c : Char) (rest : List Char)
    (hn : ¬c = '\n') (hr : ¬c = '\r') (hb : isLineBreak c = false) :
    splitlinesGo lastCR acc (c :: rest) = splitlinesGo false (c :: acc) rest := by
  simp [splitlinesGo, hn, hr, hb]

theorem splitlinesGo_no_break : ∀ (l : List Char) (lastCR : Bool) (acc : List Char),
    (∀ c ∈ acc, isLineBreak c = false) →
    ∀ e ∈ splitlinesGo lastCR acc l, ∀ c ∈ e, isLineBreak c = false := by
  intro l
  induction l with
  | nil =>
    intro lastCR acc hacc e he c hc
    rw [splitlinesGo_nil] at he
    by_cases hne : acc = []
    · simp [hne] at he
    · rw [if_neg hne, List.mem_singleton] at he
      subst he
      exact hacc c (List.mem_reverse.mp hc)
  | cons c rest ih =>
    intro lastCR acc hacc e he
    by_cases hn : c = '\n'
    · subst hn
      cases lastCR with
      | true =>
        rw [splitlinesGo_nl_skip] at he
        exact ih false acc hacc e he
      | false =>
        rw [splitlinesGo_nl] at he
        rcases List.mem_cons.mp he with he0 | he'
        · subst he0
          intro d hd
          exact hacc d (List.mem_reverse.mp hd)
        · exact ih false [] (by simp) e he'
    · by_cases hr : c = '\r'
      · subst hr
        rw [splitlinesGo_cr] at he
        rcases List.mem_cons.mp he with he0 | he'
        · subst he0
          intro d hd
          exact hacc d (List.mem_reverse.mp hd)
        · exact ih true [] (by simp) e he'
      · by_cases hb : isLineBreak c = true
        · rw [splitlinesGo_break lastCR acc c rest hn hr hb] at he
          rcases List.mem_cons.mp he with he0 | he'
          · subst he0
            intro d hd
            exact hacc d (List.mem_reverse.mp hd)
          · exact ih false [] (by simp) e he'
        · rw [splitlinesGo_other lastCR acc c rest hn hr (by simpa using hb)] at he
          refine ih false (c :: acc) ?_ e he
          intro d hd
          rcases List.mem_cons.mp hd with rfl | hd'
          · simpa using hb
          · exact hacc d hd'

/-- Claim C2: secrets obtained via the local-file fallback keep their
trailing newline (reading is line-by-line with nothing stripped — the
concatenation of the entries is exactly the translated file text, and
when the file text ends in a newline every entry ends in `\n`), so with
exact string matching no cookie value that does not itself end in a
newline can ever equal a fallback entry; the remote path, by contrast,
splits on line boundaries without retaining any boundary character. -/
theorem claim_C2 (content body : String) (cookies : List (String × String))
    (secrets : List String) (v : String)
    (hcontent : (univNewlines content.data).getLast? = some '\n')
    (hsecrets : read_jwt_secrets_file (some content) = .ok secrets)
    (hv : v.data.getLast? ≠ some '\n') :
    String.join (readlines content) = String.mk (univNewlines content.data) ∧
    (∀ e ∈ readlines content, e.data.getLast? = some '\n') ∧
    v ∉ secrets ∧
    (∀ r ∈ parse_cookies cookies secrets, r.value.data.getLast? = some '\n') ∧
    (∀ e ∈ splitlines body, ∀ c ∈ e.data, isLineBreak c = false) := by
  have hsec : secrets = readlines content := by
    have : Except.ok (readlines content) =
        (Except.ok secrets : Except FileError (List String)) := hsecrets
    exact (Except.ok.inj this).symm
  have hends : ∀ e ∈ readlines content, e.data.getLast? = some '\n' := by
    intro e he
    rcases List.mem_map.mp he with ⟨e', he', rfl⟩
    exact readlinesGo_ends_nl (univNewlines content.data) [] hcontent e' he'
  have hjoin : String.join (readlines content) = String.mk (univNewlines content.data) := by
    unfold readlines
    rw [join_map_mk]
    unfold readlinesCore
    rw [flatten_readlinesGo]
    rfl
  have hnotmem : v ∉ secrets := by
    rw [hsec]
    intro hmem
    exact hv (hends v hmem)
  refine ⟨hjoin, hends, hnotmem, ?_, ?_⟩
  · intro r hr
    rw [hsec] at hr
    exact hends r.value (parse_cookies_value_mem cookies (readlines content) r hr)
  · intro e he
    rcases List.mem_map.mp he with ⟨e', he', rfl⟩
    exact splitlinesGo_no_break body.data false [] (by simp) e' he'

/-- Concrete instance of claim C2: with a fallback file `abc123\nxyz\n`
the entry keeps its newline, so the cookie value `abc123` is not in the
fallback-sourced secrets list, and nothing of the file was stripped. -/
theorem claim_C2_witness :
    ("abc123" : String) ∉ readlines "abc123\nxyz\n" ∧
    String.join (readlines "abc123\nxyz\n") =
      String.mk (univNewlines "abc123\nxyz\n".data) := by
  have h := claim_C2 "abc123\nxyz\n" "s1\ns2" [("session", "abc123")]
    (readlines "abc123\nxyz\n") "abc123" (by decide) rfl (by decide)
  exact ⟨h.2.2.1, h.1⟩

theorem nil_mem_break_emit (lastCR : Bool) (b : Char) (t : List Char)
    (hb : isLineBreak b = true) (hlb : ¬(lastCR = true ∧ b = '\n')) :
    [] ∈ splitlinesGo lastCR [] (b :: t) := by
  by_cases hbn : b = '\n'
  · subst hbn
    cases lastCR with
    | true => exact absurd ⟨rfl, rfl⟩ hlb
    | false =>
      rw [splitlinesGo_nl]
      exact List.mem_cons_self _ _
  · by_cases hbr : b = '\r'
    · subst hbr
      rw [splitlinesGo_cr]
      exact List.mem_cons_self _ _
    · rw [splitlinesGo_break lastCR [] b t hbn hbr hb]
      exact List.mem_cons_self _ _

theorem nil_mem_splitlinesGo (l : List Char) (h : ConsecBreaks l) :
    (∀ acc, [] ∈ splitlinesGo false acc l) ∧ [] ∈ splitlinesGo true [] l := by
  induction h with
  | head a b t ha hb hab =>
    have hsub : ∀ lastCR : Bool, ¬(lastCR = true ∧ b = '\n') →
        [] ∈ splitlinesGo lastCR [] (b :: t) :=
      fun lastCR hlb => nil_mem_break_emit lastCR b t hb hlb
    constructor
    · intro acc
      by_cases han : a = '\n'
      · subst han
        rw [splitlinesGo_nl]
        exact List.mem_cons_of_mem _ (hsub false (by simp))
      · by_cases har : a = '\r'
        · subst har
          rw [splitlinesGo_cr]
          refine List.mem_cons_of_mem _ (hsub true ?_)
          rintro ⟨-, rfl⟩
          exact hab ⟨rfl, rfl⟩
        · rw [splitlinesGo_break false acc a (b :: t) han har ha]
          exact List.mem_cons_of_mem _ (hsub false (by simp))
    · by_cases han : a = '\n'
      · subst han
        rw [splitlinesGo_nl_skip]
        exact hsub false (by simp)
      · by_cases har : a = '\r'
        · subst har
          rw [splitlinesGo_cr]
          simp
        · rw [splitlinesGo_break true [] a (b :: t) han har ha]
          simp
  | tail c t h' ih =>
    constructor
    · intro acc
      by_cases hcn : c = '\n'
      · subst hcn
        rw [splitlinesGo_nl]
        exact List.mem_cons_of_mem _ (ih.1 [])
      · by_cases hcr : c = '\r'
        · subst hcr
          rw [splitlinesGo_cr]
          exact List.mem_cons_of_mem _ ih.2
        · by_cases hcb : isLineBreak c = true
          · rw [splitlinesGo_break false acc c t hcn hcr hcb]
            exact List.mem_cons_of_mem _ (ih.1 [])
          · rw [splitlinesGo_other false acc c t hcn hcr (by simpa using hcb)]
            exact ih.1 (c :: acc)
    · by_cases hcn : c = '\n'
      · subst hcn
        rw [splitlinesGo_nl_skip]
        exact ih.1 []
      · by_cases hcr : c = '\r'
        · subst hcr
          rw [splitlinesGo_cr]
          simp
        · by_cases hcb : isLineBreak c = true
          · rw [splitlinesGo_break true [] c t hcn hcr hcb]
            simp
          · rw [splitlinesGo_other true [] c t hcn hcr (by simpa using hcb)]
            exact ih.1 [c]

/-- Claim C10: a remote secrets body that contains a blank line (two
consecutive line boundaries) splits into a list containing the empty
string, and consequently every cookie whose value is the empty string is
reported as a match against that list. -/
theorem claim_C10 (body : String) (cookies : List (String × String))
    (hbody : ConsecBreaks body.data) :
    "" ∈ splitlines body ∧
    ∀ k : String, (k, "") ∈ cookies →
      MatchResult.mk k "" ∈ parse_cookies cookies (splitlines body) := by
  have h1 : [] ∈ splitlinesCore body.data := (nil_mem_splitlinesGo body.data hbody).1 []
  have h2 : "" ∈ splitlines body := by
    unfold splitlines
    exact List.mem_map.mpr ⟨[], h1, rfl⟩
  exact ⟨h2, fun k hk =>
    (mem_parse_cookies cookies (splitlines body) k "").mpr ⟨hk, h2⟩⟩

/-- Concrete instance of claim C10: the body `a\n\nb` yields an empty
secret, which matches an empty cookie value. -/
theorem claim_C10_witness :
    "" ∈ splitlines "a\n\nb" ∧
    MatchResult.mk "c" "" ∈ parse_cookies [("c", "")] (splitlines "a\n\nb") := by
  have hb : ConsecBreaks "a\n\nb".data :=
    ConsecBreaks.tail 'a' _
      (ConsecBreaks.head '\n' '\n' ['b'] (by decide) (by decide) (by decide))
  have h := claim_C10 "a\n\nb" [("c", "")] hb
  exact ⟨h.1, h.2 "c" (by decide)⟩

/-! ## Claims about the Secrets Source -/

/-- Claim C3: `download_jwt_secrets` returns the remote body split on line
boundaries exactly when the remote status is 200; a non-200 status, a
connection error, or any other exception all fall back to reading the
local `jwt.secrets.list`, and a missing local file is a fatal error that
propagates (no further fallback). -/
theorem claim_C3 :
    (∀ (body : String) (localFile : Option String),
      download_jwt_secrets (.response 200 body) localFile = .ok (splitlines body)) ∧
    (∀ (status : Nat) (body : String) (localFile : Option String),
      status ≠ SUCCESS_RESPONSE_CODE →
        download_jwt_secrets (.response status body) localFile =
          read_jwt_secrets_file localFile) ∧
    (∀ localFile : Option String,
      download_jwt_secrets .connError localFile = read_jwt_secrets_file localFile) ∧
    (∀ localFile : Option String,
      download_jwt_secrets .otherError localFile = read_jwt_secrets_file localFile) ∧
    (∀ content : String,
      read_jwt_secrets_file (some content) = .ok (readlines content)) ∧
    read_jwt_secrets_file none = .error .fileNotFound := by
  refine ⟨fun body localFile => rfl, fun status body localFile h => ?_,
    fun localFile => rfl, fun localFile => rfl, fun content => rfl, rfl⟩
  simp [download_jwt_secrets, h]

/-- Concrete instance of claim C3: an HTTP 500 response falls back to the
local file, and a missing local file is a fatal error. -/
theorem claim_C3_witness :
    download_jwt_secrets (.response 500 "x") none = read_jwt_secrets_file none ∧
    download_jwt_secrets (.response 500 "x") none = .error .fileNotFound := by
  have h := claim_C3.2.1 500 "x" none (by decide)
  exact ⟨h, h.trans claim_C3.2.2.2.2.2⟩

/-! ## Claims about the Cookie Fetcher and the run pipeline -/

/-- Claim C4 as stated is false in one point: the code terminates via a
bare Python `exit()`, which raises `SystemExit(None)` and yields process
STATUS 0, not a non-zero exit.  At the concrete malformed-URL run below
the recorded exit status is 0, refuting "terminates the run immediately
with a non-zero exit". -/
theorem claim_C4_counterexample :
    (LeakedCookie_run { url := "not a url" } .invalidURL .otherError none).exitCode =
      some 0 ∧
    ¬ ∃ c : Nat,
        (LeakedCookie_run { url := "not a url" } .invalidURL .otherError none).exitCode =
          some c ∧ c ≠ 0 := by
  refine ⟨rfl, ?_⟩
  rintro ⟨c, hc, hne⟩
  have h0 : (LeakedCookie_run { url := "not a url" } .invalidURL .otherError none).exitCode =
      some 0 := rfl
  rw [h0] at hc
  exact hne (Option.some.inj hc).symm

/-- Claim C4 (amended): for every malformed target URL the fetcher reports
the invalid-URL message and terminates the run immediately — via a bare
`exit()`, i.e. process status 0 rather than non-zero — before any later
pipeline step, so nothing is matched and no output file is written;
likewise a connection failure reports the cannot-connect message and
terminates immediately with no retry. -/
theorem claim_C4 (config : RunConfig) (remote : RemoteOutcome) (localFile : Option String) :
    ((LeakedCookie_run config .invalidURL remote localFile).printed =
        [print_in_color config.no_color ("Wrong url: " ++ config.url) true] ∧
      (LeakedCookie_run config .invalidURL remote localFile).result = none ∧
      (LeakedCookie_run config .invalidURL remote localFile).fileWrite = none ∧
      (LeakedCookie_run config .invalidURL remote localFile).exitCode = some 0) ∧
    ((LeakedCookie_run config .connError remote localFile).printed =
        [print_in_color config.no_color
          ("Cannot connect to host " ++ config.url ++
           ".[nodename nor servname provided, or not known]") true] ∧
      (LeakedCookie_run config .connError remote localFile).result = none ∧
      (LeakedCookie_run config .connError remote localFile).fileWrite = none ∧
      (LeakedCookie_run config .connError remote localFile).exitCode = some 0) :=
  ⟨⟨rfl, rfl, rfl, rfl⟩, ⟨rfl, rfl, rfl, rfl⟩⟩

/-! ## Helper lemmas about coloring -/

theorem pic_no_color (t : String) (d : Bool) : print_in_color true t d = t := rfl

theorem stripColor_pic (t : String) (d : Bool) :
    stripColor (print_in_color false t d) = t := by
  obtain ⟨data⟩ := t
  cases d <;> rfl

theorem strip_result_pairs (res : List MatchResult) :
    ((res.map (fun r =>
        [print_in_color false ("title: " ++ r.title) true,
         print_in_color false ("value: " ++ r.value) true])).flatten).map stripColor =
      (res.map (fun r =>
        [print_in_color true ("title: " ++ r.title) true,
         print_in_color true ("value: " ++ r.value) true])).flatten := by
  induction res with
  | nil => rfl
  | cons r rest ih =>
    simp only [List.map_cons, List.flatten_cons, List.map_append, ih, List.map_cons,
      List.map_nil, stripColor_pic, pic_no_color]

theorem strip_result_lines (res : List MatchResult) :
    (print_result_lines false res).map stripColor = print_result_lines true res := by
  unfold print_result_lines
  by_cases h : res.isEmpty
  · simp [h, stripColor_pic, pic_no_color]
  · simp only [h, if_false, Bool.false_eq_true, List.map_cons, stripColor_pic,
      strip_result_pairs, pic_no_color]

theorem strip_cookies_lines (cookies : List (String × String)) :
    (print_cookies_lines false cookies).map stripColor = print_cookies_lines true cookies := by
  unfold print_cookies_lines
  simp [stripColor_pic, pic_no_color, List.map_map, Function.comp]

/-- Claim C8: two runs identical except for the `no_color` flag compute
the same MatchResult sequence, write the same output file, and terminate
the same way; their console output differs only by the ANSI color prefix
of each line (stripping the prefix from the colored run yields the
uncolored run's lines verbatim). -/
theorem claim_C8 (config : RunConfig) (target : TargetOutcome) (remote : RemoteOutcome)
    (localFile : Option String) :
    (LeakedCookie_run { config with no_color := true } target remote localFile).result =
      (LeakedCookie_run { config with no_color := false } target remote localFile).result ∧
    (LeakedCookie_run { config with no_color := true } target remote localFile).fileWrite =
      (LeakedCookie_run { config with no_color := false } target remote localFile).fileWrite ∧
    (LeakedCookie_run { config with no_color := true } target remote localFile).exitCode =
      (LeakedCookie_run { config with no_color := false } target remote localFile).exitCode ∧
    (LeakedCookie_run { config with no_color := true } target remote localFile).printed =
      ((LeakedCookie_run { config with no_color := false } target remote
          localFile).printed).map stripColor := by
  obtain ⟨url, output, quiet, pc, nc⟩ := config
  cases target with
  | invalidURL =>
    refine ⟨rfl, rfl, rfl, ?_⟩
    simp [LeakedCookie_run, make_request_to_target, stripColor_pic, pic_no_color]
  | connError =>
    refine ⟨rfl, rfl, rfl, ?_⟩
    simp [LeakedCookie_run, make_request_to_target, stripColor_pic, pic_no_color]
  | ok cookies =>
    unfold LeakedCookie_run
    simp only [make_request_to_target]
    cases h : download_jwt_secrets remote localFile with
    | error e =>
      refine ⟨rfl, rfl, rfl, ?_⟩
      by_cases hpc : (pc && !cookies.isEmpty) = true <;>
        simp [hpc, strip_cookies_lines]
    | ok secrets =>
      refine ⟨rfl, rfl, rfl, ?_⟩
      by_cases hpc : (pc && !cookies.isEmpty) = true <;>
        by_cases hq : quiet = true <;>
          simp [hpc, hq, strip_cookies_lines, strip_result_lines]

/-- Claim C7: on every run that completes the pipeline (cookies fetched,
secrets obtained) the serialized MatchResult sequence is written to the
configured output file for every combination of the quiet and
print-cookies flags; an empty match sequence still writes the empty JSON
array; and setting quiet suppresses exactly the console result summary
and nothing else. -/
theorem claim_C7 (config : RunConfig) (cookies : List (String × String))
    (remote : RemoteOutcome) (localFile : Option String) (secrets : List String)
    (h : download_jwt_secrets remote localFile = Except.ok secrets) :
    (LeakedCookie_run config (.ok cookies) remote localFile).fileWrite =
      some (config.output, json_dumps (parse_cookies cookies secrets)) ∧
    (parse_cookies cookies secrets = [] →
      (LeakedCookie_run config (.ok cookies) remote localFile).fileWrite =
        some (config.output, "[]")) ∧
    (LeakedCookie_run { config with quiet := true } (.ok cookies) remote
        localFile).fileWrite =
      (LeakedCookie_run { config with quiet := false } (.ok cookies) remote
        localFile).fileWrite ∧
    (LeakedCookie_run { config with quiet := true } (.ok cookies) remote
          localFile).printed ++
        print_result_lines config.no_color (parse_cookies cookies secrets) =
      (LeakedCookie_run { config with quiet := false } (.ok cookies) remote
        localFile).printed := by
  obtain ⟨url, output, quiet, pc, nc⟩ := config
  refine ⟨?_, ?_, ?_, ?_⟩
  · simp [LeakedCookie_run, make_request_to_target, h]
  · intro hres
    simp [LeakedCookie_run, make_request_to_target, h, hres, json_dumps, dumpsCore,
      dumpItems]
  · simp [LeakedCookie_run, make_request_to_target, h]
  · simp [LeakedCookie_run, make_request_to_target, h, List.append_assoc]

/-- Concrete instance of claim C7 (local fallback file `abc123`, one
matching cookie): the output file is written with the one match whether
or not quiet is set. -/
theorem claim_C7_witness :
    (LeakedCookie_run { url := "u" } (.ok [("session", "abc123")]) .connError
        (some "abc123")).fileWrite =
      some (("result.json" : String),
        json_dumps (parse_cookies [("session", "abc123")] ["abc123"])) ∧
    (LeakedCookie_run { url := "u", quiet := true } (.ok [("session", "abc123")])
        .connError (some "abc123")).fileWrite =
      (LeakedCookie_run { url := "u", quiet := false } (.ok [("session", "abc123")])
        .connError (some "abc123")).fileWrite := by
  have h := claim_C7 { url := "u" } [("session", "abc123")] .connError
    (some "abc123") ["abc123"] (by rfl)
  exact ⟨h.1, h.2.2.1⟩

/-! ## Helper lemmas for the JSON round trip -/

theorem fromHexDig_hexDig : ∀ k : Nat, k < 16 → fromHexDig (hexDig k) = some k := by
  decide

theorem hexRecombine (n : Nat) (h : n < 65536) :
    ((n / 4096 % 16 * 16 + n / 256 % 16) * 16 + n / 16 % 16) * 16 + n % 16 = n := by
  omega

theorem parseHex4_hex4 (v : Nat) (tl : List Char) (hv : v < 65536) :
    parseHex4 (hex4 v ++ tl) = some (v, tl) := by
  have d1 := fromHexDig_hexDig (v / 4096 % 16) (by omega)
  have d2 := fromHexDig_hexDig (v / 256 % 16) (by omega)
  have d3 := fromHexDig_hexDig (v / 16 % 16) (by omega)
  have d4 := fromHexDig_hexDig (v % 16) (by omega)
  simp only [hex4, List.cons_append, List.nil_append, parseHex4, d1, d2, d3, d4]
  rw [hexRecombine v hv]

theorem decodeU_hex4_bmp (v : Nat) (tl : List Char) (hv : v < 65536)
    (hs1 : ¬(0xd800 ≤ v ∧ v < 0xdc00)) (hs2 : ¬(0xdc00 ≤ v ∧ v < 0xe000)) :
    decodeU (hex4 v ++ tl) = some (Char.ofNat v, tl) := by
  unfold decodeU
  rw [parseHex4_hex4 v tl hv]
  simp [hs1, hs2]

theorem decodeU_surrogate (v : Nat) (tl : List Char) (h1 : 0x10000 ≤ v)
    (h2 : v < 0x110000) :
    decodeU (hex4 (0xd800 + (v - 0x10000) / 0x400) ++
      '\\' :: 'u' :: (hex4 (0xdc00 + (v - 0x10000) % 0x400) ++ tl)) =
      some (Char.ofNat v, tl) := by
  have hhi : 0xd800 + (v - 0x10000) / 0x400 < 65536 := by omega
  have hlo : 0xdc00 + (v - 0x10000) % 0x400 < 65536 := by omega
  have c1 : 0xd800 ≤ 0xd800 + (v - 0x10000) / 0x400 ∧
      0xd800 + (v - 0x10000) / 0x400 < 0xdc00 := by omega
  have c2 : 0xdc00 ≤ 0xdc00 + (v - 0x10000) % 0x400 ∧
      0xdc00 + (v - 0x10000) % 0x400 < 0xe000 := by omega
  have harith : 65536 + (55296 + (v - 65536) / 1024 - 55296) * 1024 +
      (56320 + (v - 65536) % 1024 - 56320) = v := by omega
  rw [decodeU]
  rw [parseHex4_hex4 _ _ hhi]
  simp only [c1, and_self, if_pos]
  rw [parseHex4_hex4 _ _ hlo]
  simp only [c2, and_self, if_pos]
  rw [harith]

theorem decodeEscape_u (tl : List Char) : decodeEscape ('u' :: tl) = decodeU tl := by
  simp [decodeEscape]

theorem parseStr_quote (tl : List Char) : parseStr ('"' :: tl) = some ([], tl) := by
  rw [parseStr.eq_def]
  simp

theorem parseStr_backslash_some (rest : List Char) (ch : Char) (rest2 : List Char)
    (h : decodeEscape rest = some (ch, rest2)) :
    parseStr ('\\' :: rest) = (parseStr rest2).map (fun p => (ch :: p.1, p.2)) := by
  rw [parseStr.eq_def]
  dsimp only
  rw [if_neg (by decide), if_pos rfl]
  split
  · rename_i ch' rest2' heq
    rw [h] at heq
    injection heq with heq'
    injection heq' with ha hb
    subst ha
    subst hb
    rfl
  · rename_i heq
    rw [h] at heq
    exact absurd heq (by simp)

theorem parseStr_plain (c : Char) (tl : List Char) (h1 : ¬c = '"') (h2 : ¬c = '\\')
    (h3 : 0x20 ≤ c.toNat) :
    parseStr (c :: tl) = (parseStr tl).map (fun p => (c :: p.1, p.2)) := by
  rw [parseStr.eq_def]
  simp [h1, h2, h3]

theorem parseStr_escapeChar (c : Char) (tl : List Char) :
    parseStr (escapeChar c ++ tl) = (parseStr tl).map (fun p => (c :: p.1, p.2)) := by
  unfold escapeChar
  split_ifs with h1 h2 h3 h4 h5 h6 h7 h8 h9
  · subst h1
    rw [List.cons_append, List.cons_append, List.nil_append]
    exact parseStr_backslash_some _ _ _ (by simp [decodeEscape])
  · subst h2
    rw [List.cons_append, List.cons_append, List.nil_append]
    exact parseStr_backslash_some _ _ _ (by simp [decodeEscape])
  · subst h3
    rw [List.cons_append, List.cons_append, List.nil_append]
    exact parseStr_backslash_some _ _ _ (by simp [decodeEscape])
  · subst h4
    rw [List.cons_append, List.cons_append, List.nil_append]
    exact parseStr_backslash_some _ _ _ (by simp [decodeEscape])
  · subst h5
    rw [List.cons_append, List.cons_append, List.nil_append]
    exact parseStr_backslash_some _ _ _ (by simp [decodeEscape])
  · subst h6
    rw [List.cons_append, List.cons_append, List.nil_append]
    exact parseStr_backslash_some _ _ _ (by simp [decodeEscape])
  · subst h7
    rw [List.cons_append, List.cons_append, List.nil_append]
    exact parseStr_backslash_some _ _ _ (by simp [decodeEscape])
  · rw [List.cons_append, List.nil_append]
    exact parseStr_plain c tl h2 h1 h8.1
  · have hval : Nat.isValidChar c.toNat := c.valid
    have hs1 : ¬(0xd800 ≤ c.toNat ∧ c.toNat < 0xdc00) := by
      rcases hval with hv | ⟨hv1, hv2⟩ <;> omega
    have hs2 : ¬(0xdc00 ≤ c.toNat ∧ c.toNat < 0xe000) := by
      rcases hval with hv | ⟨hv1, hv2⟩ <;> omega
    rw [List.cons_append, List.cons_append]
    refine parseStr_backslash_some _ _ _ ?_
    rw [decodeEscape_u, decodeU_hex4_bmp c.toNat tl h9 hs1 hs2, Char.ofNat_toNat]
  · have hval : Nat.isValidChar c.toNat := c.valid
    have hge : 0x10000 ≤ c.toNat := by omega
    have hlt : c.toNat < 0x110000 := by
      rcases hval with hv | ⟨hv1, hv2⟩ <;> omega
    rw [List.append_assoc, List.cons_append, List.cons_append]
    refine parseStr_backslash_some _ _ _ ?_
    rw [decodeEscape_u]
    rw [List.cons_append, List.cons_append]
    rw [decodeU_surrogate c.toNat tl hge hlt, Char.ofNat_toNat]

theorem parseStr_escapeList (s : List Char) : ∀ tl : List Char,
    parseStr (escapeList s ++ tl) = (parseStr tl).map (fun p => (s ++ p.1, p.2)) := by
  induction s with
  | nil =>
    intro tl
    simp only [escapeList, List.map_nil, List.flatten_nil, List.nil_append]
    cases h : parseStr tl <;> simp
  | cons c s' ih =>
    intro tl
    simp only [escapeList, List.map_cons, List.flatten_cons, List.append_assoc]
    rw [parseStr_escapeChar]
    rw [show (s'.map escapeChar).flatten = escapeList s' from rfl, ih tl]
    cases h : parseStr tl <;> simp

theorem parseStr_escEnd (s tl : List Char) :
    parseStr (escapeList s ++ '"' :: tl) = some (s, tl) := by
  rw [parseStr_escapeList, parseStr_quote]
  simp

theorem skipWs_not_ws (c : Char) (l : List Char) (h : isJsonWs c = false) :
    skipWs (c :: l) = c :: l := by
  simp [skipWs, List.dropWhile, h]

theorem skipWs_space (l : List Char) : skipWs (' ' :: l) = skipWs l := by
  simp [skipWs, List.dropWhile, isJsonWs]

theorem parsePair_ws (l : List Char) : parsePair (' ' :: l) = parsePair l := by
  unfold parsePair
  rw [skipWs_space]

theorem parsePair_enc (key val tl : List Char) :
    parsePair ('"' :: (escapeList key ++ '"' :: ':' :: ' ' :: '"' ::
      (escapeList val ++ '"' :: tl))) = some ((key, val), tl) := by
  unfold parsePair
  rw [skipWs_not_ws '"' _ (by decide)]
  dsimp only
  rw [if_pos rfl, parseStr_escEnd]
  dsimp only
  rw [skipWs_not_ws ':' _ (by decide)]
  dsimp only
  rw [if_pos rfl, skipWs_space, skipWs_not_ws '"' _ (by decide)]
  dsimp only
  rw [if_pos rfl, parseStr_escEnd]
  rfl

theorem dumpEntry_eq (r : MatchResult) (tl : List Char) :
    dumpEntry r ++ tl =
      '\x7b' :: '"' :: (escapeList "title".data ++ '"' :: ':' :: ' ' :: '"' ::
        (escapeList r.title.data ++ '"' :: ',' :: ' ' :: '"' ::
          (escapeList "value".data ++ '"' :: ':' :: ' ' :: '"' ::
            (escapeList r.value.data ++ '"' :: '\x7d' :: tl)))) := by
  simp [dumpEntry, encStr, List.append_assoc]

theorem parseObj_ws (fuel : Nat) (l : List Char) :
    parseObj fuel (' ' :: l) = parseObj fuel l := by
  unfold parseObj
  rw [skipWs_space]

theorem parseObj_dumpEntry (r : MatchResult) (tl : List Char) (fuel : Nat) :
    parseObj (fuel + 2) (dumpEntry r ++ tl) = some (entryObj r, tl) := by
  rw [dumpEntry_eq]
  unfold parseObj
  rw [skipWs_not_ws '\x7b' _ (by decide)]
  dsimp only
  rw [if_pos rfl, skipWs_not_ws '"' _ (by decide)]
  dsimp only
  rw [if_neg (by decide)]
  show parseMembers (fuel + 1 + 1) _ = _
  unfold parseMembers
  rw [parsePair_enc]
  dsimp only
  rw [skipWs_not_ws ',' _ (by decide)]
  dsimp only
  rw [if_neg (by decide), if_pos rfl]
  show (match parseMembers (fuel + 1) _ with
    | some (ps, r3) => some (_ :: ps, r3)
    | none => none) = _
  rw [show fuel + 1 = fuel + 0 + 1 from rfl]
  unfold parseMembers
  rw [parsePair_ws, parsePair_enc]
  dsimp only
  rw [skipWs_not_ws '\x7d' _ (by decide)]
  dsimp only
  rw [if_pos rfl]
  rfl

theorem parseElems_ws (fuel : Nat) (l : List Char) :
    parseElems (fuel + 1) (' ' :: l) = parseElems (fuel + 1) l := by
  unfold parseElems
  rw [parseObj_ws]

theorem parseElems_dumpItems (rs : List MatchResult) : ∀ (r : MatchResult) (fuel : Nat)
    (tl : List Char), rs.length + 2 ≤ fuel →
    parseElems fuel (dumpItems (r :: rs) ++ ']' :: tl) =
      some ((r :: rs).map entryObj, tl) := by
  induction rs with
  | nil =>
    intro r fuel tl hf
    obtain ⟨f, rfl⟩ : ∃ f, fuel = f + 2 := ⟨fuel - 2, by omega⟩
    show parseElems (f + 1 + 1) (dumpEntry r ++ ']' :: tl) = some ([entryObj r], tl)
    unfold parseElems
    rw [show f + 1 + 1 = f + 2 from rfl, parseObj_dumpEntry]
    dsimp only
    rw [skipWs_not_ws ']' _ (by decide)]
    dsimp only
    rw [if_pos rfl]
  | cons x rs' ih =>
    intro r fuel tl hf
    obtain ⟨f, rfl⟩ : ∃ f, fuel = f + 2 := ⟨fuel - 2, by omega⟩
    have hdi : dumpItems (r :: x :: rs') = dumpEntry r ++ ',' :: ' ' :: dumpItems (x :: rs') := by
      simp [dumpItems]
    rw [hdi, List.append_assoc]
    show parseElems (f + 1 + 1) _ = _
    unfold parseElems
    rw [show f + 1 + 1 = f + 2 from rfl, parseObj_dumpEntry]
    rw [List.cons_append, List.cons_append]
    dsimp only
    rw [skipWs_not_ws ',' _ (by decide)]
    dsimp only
    rw [if_neg (by decide), if_pos rfl]
    rw [parseElems_ws]
    rw [ih x (f + 1) tl (by simp at hf ⊢; omega)]
    rfl

theorem dumpItems_head (r : MatchResult) (rs : List MatchResult) (tl : List Char) :
    ∃ t, dumpItems (r :: rs) ++ tl = '\x7b' :: t := by
  cases rs with
  | nil => exact ⟨_, dumpEntry_eq r tl⟩
  | cons x rs' =>
    have h1 : dumpItems (r :: x :: rs') ++ tl =
        dumpEntry r ++ (',' :: ' ' :: dumpItems (x :: rs') ++ tl) := by
      rw [show dumpItems (r :: x :: rs') = dumpEntry r ++ ',' :: ' ' :: dumpItems (x :: rs')
        from by simp [dumpItems], List.append_assoc]
    exact ⟨_, h1.trans (dumpEntry_eq r _)⟩

theorem length_le_dumpItems (l : List MatchResult) : l.length ≤ (dumpItems l).length := by
  induction l with
  | nil => simp [dumpItems]
  | cons r rest ih =>
    cases rest with
    | nil => simp [dumpItems, dumpEntry]
    | cons x rs =>
      have hdi : dumpItems (r :: x :: rs) = dumpEntry r ++ ',' :: ' ' :: dumpItems (x :: rs) := by
        simp [dumpItems]
      rw [hdi]
      simp only [List.length_append, List.length_cons] at ih ⊢
      omega

/-- Claim C6: the JSON text written by the Reporter for any MatchResult
sequence, when parsed back by `json.loads` (modelled for the grammar the
program emits), yields an array of objects each having exactly the two
keys `title` and `value`, equal in content and order to the sequence that
produced it. -/
theorem claim_C6 (l : List MatchResult) :
    jsonParse (json_dumps l) =
      some (l.map (fun r => [("title", r.title), ("value", r.value)])) := by
  unfold jsonParse json_dumps
  rw [show (String.mk (dumpsCore l)).data = dumpsCore l from rfl]
  cases l with
  | nil => rfl
  | cons r rs =>
    show (parseTop (('[' :: dumpItems (r :: rs)) ++ [']'])).map _ = _
    unfold parseTop
    rw [List.cons_append, skipWs_not_ws '[' _ (by decide)]
    dsimp only
    rw [if_pos rfl]
    obtain ⟨t, ht⟩ := dumpItems_head r rs [']']
    rw [ht, skipWs_not_ws '\x7b' _ (by decide)]
    dsimp only
    rw [if_neg (by decide), ← ht]
    have hfuel : rs.length + 2 ≤ ('[' :: (dumpItems (r :: rs) ++ [']'])).length + 1 := by
      have := length_le_dumpItems (r :: rs)
      simp only [List.length_cons, List.length_append] at this ⊢
      omega
    rw [parseElems_dumpItems rs r _ [] hfuel]
    dsimp only
    rw [show skipWs [] = [] from rfl, if_pos rfl]
    simp [entryObj]

/-! ## Claim about the configuration defaults -/

/-- Claim C9: a `RunConfig` built without an explicit `no_color` argument
defaults to `no_color = true`, while the argparse flag `-n` defaults to
`False`; `define_config_from_cmd` always passes the parsed value through,
so the NamedTuple default matters only for direct construction. -/
theorem claim_C9 :
    (∀ u : String, ({ url := u } : RunConfig).no_color = true) ∧
    argparse_no_color_default = false ∧
    (∀ a : CliArgs, (define_config_from_cmd a).no_color = a.no_color) :=
  ⟨fun _ => rfl, rfl, fun _ => rfl⟩

end LeakedCreds
